import Mathlib

/-!
# Verification of the Properties 4 Creations client-side core

Shallow embedding of the repository's JavaScript core components and proofs
of the specification's claims about them:

* `RateLimiter.isAllowed` (src/docs/js/utils/rateLimiter.js)
* `PropertyFilter.applyFilters` / `render` and the debounced filter inputs
  (PropertyFilter class embedded in src/MIGRATION_READY.md)
* `FormValidator.validateField` and the built-in validators
  (src/_site/js/security/csrf-protection.js)
* `Accordion.open` / `Accordion.close` (src/docs/js/theme-toggle.js)

Times are modelled as integers (JavaScript `Date.now()` millisecond values),
strings as Lean `String`/`List Char`.
-/

namespace P4C

/-! ## RateLimiter (src/docs/js/utils/rateLimiter.js)

The per-key attempt map `this.attempts : Map<string, number[]>` is modelled
as a total function `String → List Int`; `Map.get(key) || []` returns `[]`
for an absent key, which the function model builds in.  `Math.ceil(a/1000)`
on integer millisecond values is exact rational ceiling division. -/

/-- Ceiling division on integers: `Math.ceil(a / b)` for integer `a` and
positive integer `b`. -/
def ceilDiv (a b : Int) : Int := -((-a) / b)

/-- Result object returned by `RateLimiter.isAllowed`.  Fields that are
absent from one of the two JS result shapes are `Option`s. -/
structure RLResult where
  allowed : Bool
  retryAfter : Option Int := none
  attempts : Nat
  maxAttempts : Nat
  remainingAttempts : Option Int := none
deriving Repr, DecidableEq

/-- `userAttempts.filter((timestamp) => now - timestamp < this.windowMs)`. -/
def validAttemptsOf (windowMs now : Int) (userAttempts : List Int) : List Int :=
  userAttempts.filter (fun timestamp => now - timestamp < windowMs)

/-- `RateLimiter.isAllowed(key)`, with `now` passed explicitly in place of
`Date.now()` and the attempt map passed and returned explicitly.
`validAttempts[0]` is modelled with `headD 0`; the list is non-empty in the
branch that reads it whenever `maxAttempts ≥ 1`. -/
def isAllowed (maxAttempts : Nat) (windowMs : Int)
    (attempts : String → List Int) (key : String) (now : Int) :
    RLResult × (String → List Int) :=
  let userAttempts := attempts key
  let validAttempts := validAttemptsOf windowMs now userAttempts
  if validAttempts.length ≥ maxAttempts then
    let oldestAttempt := validAttempts.headD 0
    let retryAfter := ceilDiv (oldestAttempt + windowMs - now) 1000
    ({ allowed := false
       retryAfter := some (max 1 retryAfter)
       attempts := validAttempts.length
       maxAttempts := maxAttempts }, attempts)
  else
    let newAttempts := validAttempts ++ [now]
    ({ allowed := true
       attempts := newAttempts.length
       maxAttempts := maxAttempts
       remainingAttempts := some ((maxAttempts : Int) - newAttempts.length) },
     fun k => if k = key then newAttempts else attempts k)

/-- State of the attempt map for key `"k"` of a `RateLimiter(3, 60000)`
(`createFormRateLimiter`) after calls to `isAllowed("k")` at the given times. -/
def rlRunState (times : List Int) : String → List Int :=
  times.foldl (fun st t => (isAllowed 3 60000 st "k" t).2) (fun _ => [])

/-- Result of one further `isAllowed("k")` call at time `t` after calls at
`times`, for a `RateLimiter(3, 60000)`. -/
def rlRunCall (times : List Int) (t : Int) : RLResult :=
  (isAllowed 3 60000 (rlRunState times) "k" t).1

/-! ## PropertyFilter (class embedded in src/MIGRATION_READY.md)

Properties are modelled with all text fields present (`name || ''` etc. is
the identity on present string fields), `bedrooms`/`bathrooms` as naturals
and `price_amount` as an integer. -/

/-- `s.includes(sub)`: `sub` occurs as a contiguous substring of `s`. -/
def strIncludes (s sub : String) : Bool := decide (sub.toList <:+: s.toList)

/-- A property record from the embedded data payload. -/
structure Property where
  id : String
  slug : String
  name : String
  address : String
  city : String
  description : String
  bedrooms : Nat
  bathrooms : Nat
  price_amount : Int
  type : String
  tags : List String
  image : String
  featured : Bool
deriving Repr, DecidableEq

/-- `this.filters` of `PropertyFilter`: `null` becomes `none`; the falsy
empty string / empty array defaults are kept as such. -/
structure FilterCriteria where
  bedrooms : Option Nat
  bathrooms : Option Nat
  tags : List String
  search : String
  minPrice : Option Int
  maxPrice : Option Int
  propertyType : String
deriving Repr, DecidableEq

/-- The default / reset criteria set by the constructor and `resetFilters()`. -/
def defaultFilters : FilterCriteria :=
  { bedrooms := none
    bathrooms := none
    tags := []
    search := ""
    minPrice := none
    maxPrice := none
    propertyType := "" }

/-- `String.prototype.toLowerCase`, character by character. -/
def jsToLower (s : String) : String := ⟨s.toList.map Char.toLower⟩

/-- `` `${prop.name} ${prop.address} ${prop.city} ${prop.description}`.toLowerCase() ``. -/
def searchableText (p : Property) : String :=
  jsToLower (p.name ++ " " ++ p.address ++ " " ++ p.city ++ " " ++ p.description)

/-- `this.filters.tags.every((tag) => propTags.includes(tag))`. -/
def hasAllTags (tags propTags : List String) : Bool :=
  tags.all (fun tag => propTags.contains tag)

/-- The predicate of `applyFilters()`: the early-return chain of the
callback passed to `this.allProperties.filter`, one `if` per criterion in
source order (search, bedrooms, bathrooms, propertyType, minPrice,
maxPrice, tags).  Truthiness tests of `this.filters.search` and
`this.filters.propertyType` are emptiness tests on strings. -/
def matchesFilters (f : FilterCriteria) (prop : Property) : Bool :=
  if f.search != "" && ! strIncludes (searchableText prop) f.search then false
  else if f.bedrooms.elim false (fun b => decide (prop.bedrooms < b)) then false
  else if f.bathrooms.elim false (fun b => decide (prop.bathrooms < b)) then false
  else if f.propertyType != "" && prop.type != f.propertyType then false
  else if f.minPrice.elim false (fun m => decide (prop.price_amount < m)) then false
  else if f.maxPrice.elim false (fun m => decide (prop.price_amount > m)) then false
  else if decide (f.tags.length > 0) && ! hasAllTags f.tags prop.tags then false
  else true

/-- `applyFilters()`: recompute `filteredProperties` from `allProperties`. -/
def applyFilters (f : FilterCriteria) (allProperties : List Property) : List Property :=
  allProperties.filter (fun prop => matchesFilters f prop)

/-- The DOM-relevant data of a card built by `createPropertyCard(prop, index)`. -/
structure PropertyCard where
  propertyId : String
  animationDelayMs : Nat
deriving Repr, DecidableEq

/-- `createPropertyCard(prop, index)`: `data-property-id` is
`prop.id || prop.slug`, the animation delay is `index * 50` ms. -/
def createPropertyCard (prop : Property) (index : Nat) : PropertyCard :=
  { propertyId := if prop.id != "" then prop.id else prop.slug
    animationDelayMs := index * 50 }

/-- What `render()` leaves in the container. -/
inductive RenderOutput where
  | noResults
  | cards (cs : List PropertyCard)
deriving Repr, DecidableEq

/-- `render()`: a no-results placeholder when the filtered list is empty,
otherwise one card per filtered property, in list order. -/
def render (filteredProperties : List Property) : RenderOutput :=
  if filteredProperties.length = 0 then .noResults
  else .cards (filteredProperties.enum.map (fun it => createPropertyCard it.2 it.1))

/-- A concrete property record, used to instantiate universally quantified
theorems at concrete inputs. -/
def sampleProperty : Property :=
  { id := "p1"
    slug := "cedar-house"
    name := "Cedar House"
    address := "101 Main St"
    city := "Tyler"
    description := "Cozy single family home"
    bedrooms := 3
    bathrooms := 2
    price_amount := 1200
    type := "Single Family"
    tags := ["Section 8", "Pet Friendly"]
    image := "/images/cedar.webp"
    featured := false }

/-- A second concrete property record. -/
def sampleProperty2 : Property :=
  { id := "p2"
    slug := "oak-flat"
    name := "Oak Flat"
    address := "22 Oak Ave"
    city := "Tyler"
    description := "Urban studio"
    bedrooms := 1
    bathrooms := 1
    price_amount := 800
    type := "Studio"
    tags := ["Pet Friendly"]
    image := "/images/oak.webp"
    featured := true }

/-! ## FormValidator (src/_site/js/security/csrf-protection.js)

The built-in validators are anchored regular expressions; they are embedded
with a small nondeterministic matcher over `List Char`: a matcher maps an
input to the list of all possible remainders, sequencing is `List.flatMap`,
and an anchored regex accepts iff the empty remainder is reachable. -/

/-- The JavaScript `\s` character class (also the set trimmed by
`String.prototype.trim`). -/
def isJsWhitespace (c : Char) : Bool :=
  c = ' ' || c = '\t' || c = '\n' || c = '\r' ||
  c.toNat = 0x0b || c.toNat = 0x0c || c.toNat = 0xa0 || c.toNat = 0x1680 ||
  (0x2000 ≤ c.toNat && c.toNat ≤ 0x200a) ||
  c.toNat = 0x2028 || c.toNat = 0x2029 || c.toNat = 0x202f ||
  c.toNat = 0x205f || c.toNat = 0x3000 || c.toNat = 0xfeff

/-- `value.trim()`. -/
def jsTrim (s : String) : String :=
  ⟨((s.toList.dropWhile isJsWhitespace).reverse.dropWhile isJsWhitespace).reverse⟩

/-- `[^\s@]`, the character class of the email regex. -/
def emailChar (c : Char) : Bool := !(isJsWhitespace c) && c != '@'

/-- `[-.\s]`, the optional separator class of the phone regex. -/
def isSepChar (c : Char) : Bool := c = '-' || c = '.' || isJsWhitespace c

/-- Match exactly one character satisfying `p`. -/
def mOne (p : Char → Bool) : List Char → List (List Char)
  | [] => []
  | c :: rest => if p c then [rest] else []

/-- Match one or more characters satisfying `p` (regex `+`). -/
def mPlus (p : Char → Bool) : List Char → List (List Char)
  | [] => []
  | c :: rest => if p c then rest :: mPlus p rest else []

/-- Match zero or one character satisfying `p` (regex `?` on a class). -/
def mOpt (p : Char → Bool) : List Char → List (List Char)
  | [] => [[]]
  | c :: rest => if p c then [c :: rest, rest] else [c :: rest]

/-- Match exactly `n` characters satisfying `p` (regex `{n}`). -/
def mExactly : Nat → (Char → Bool) → List Char → List (List Char)
  | 0, _, cs => [cs]
  | _ + 1, _, [] => []
  | n + 1, p, c :: rest => if p c then mExactly n p rest else []

/-- Validator result object `{valid, message}`. -/
structure FVResult where
  valid : Bool
  message : String
deriving Repr, DecidableEq

/-- `validators.required`: `value.trim().length > 0`. -/
def requiredValidator (value : String) : FVResult :=
  { valid := decide ((jsTrim value).length > 0)
    message := "This field is required" }

/-- `validators.email`: `/^[^\s@]+@[^\s@]+\.[^\s@]+$/.test(value)`. -/
def emailValidator (value : String) : FVResult :=
  { valid := decide ([] ∈
      ((((mPlus emailChar value.toList).flatMap
        (mOne (· = '@'))).flatMap
        (mPlus emailChar)).flatMap
        (mOne (· = '.'))).flatMap
        (mPlus emailChar))
    message := "Please enter a valid email address" }

/-- `validators.phone`:
`/^\(?([0-9]{3})\)?[-.\s]?([0-9]{3})[-.\s]?([0-9]{4})$/.test(value)`. -/
def phoneValidator (value : String) : FVResult :=
  { valid := decide ([] ∈
      ((((((mOpt (· = '(') value.toList).flatMap
        (mExactly 3 Char.isDigit)).flatMap
        (mOpt (· = ')'))).flatMap
        (mOpt isSepChar)).flatMap
        (mExactly 3 Char.isDigit)).flatMap
        (mOpt isSepChar)).flatMap
        (mExactly 4 Char.isDigit))
    message := "Please enter a valid phone number (e.g., 903-555-1234)" }

/-- `validators.zip`: `/^\d{5}(-\d{4})?$/.test(value)`.  The optional group
contributes the remainder unchanged or a `-` followed by four digits. -/
def zipValidator (value : String) : FVResult :=
  { valid := decide ([] ∈
      (mExactly 5 Char.isDigit value.toList).flatMap
        (fun r => r :: (mOne (· = '-') r).flatMap (mExactly 4 Char.isDigit)))
    message := "Please enter a valid ZIP code (e.g., 75701 or 75701-1234)" }

/-- `validators.ssn`: `/^\d{3}-?\d{2}-?\d{4}$/.test(value)`. -/
def ssnValidator (value : String) : FVResult :=
  { valid := decide ([] ∈
      ((((mExactly 3 Char.isDigit value.toList).flatMap
        (mOpt (· = '-'))).flatMap
        (mExactly 2 Char.isDigit)).flatMap
        (mOpt (· = '-'))).flatMap
        (mExactly 4 Char.isDigit))
    message := "Please enter a valid SSN (XXX-XX-XXXX)" }

/-- Numeric value of a list of decimal digits. -/
def digitsVal (ds : List Char) : Nat :=
  ds.foldl (fun a c => a * 10 + (c.toNat - '0'.toNat)) 0

/-- `parseInt(s, 10)`: skip leading whitespace, optional sign, then the
longest decimal digit prefix; `none` models `NaN`. -/
def parseIntJS (s : String) : Option Int :=
  let cs := s.toList.dropWhile isJsWhitespace
  let signed : Bool × List Char :=
    match cs with
    | '-' :: r => (true, r)
    | '+' :: r => (false, r)
    | r => (false, r)
  let ds := signed.2.takeWhile Char.isDigit
  if ds.isEmpty then none
  else some ((if signed.1 then -1 else 1) * (digitsVal ds : Int))

/-- `validators.minLength`: `value.length >= parseInt(length, 10)`; a
missing or non-numeric parameter gives `NaN` and the comparison is false. -/
def minLengthValidator (value : String) (param : Option String) : FVResult :=
  { valid := match param.bind parseIntJS with
      | some n => decide ((value.length : Int) ≥ n)
      | none => false
    message := "Must be at least " ++ param.getD "undefined" ++ " characters" }

/-- `validators.maxLength`: `value.length <= parseInt(length, 10)`. -/
def maxLengthValidator (value : String) (param : Option String) : FVResult :=
  { valid := match param.bind parseIntJS with
      | some n => decide ((value.length : Int) ≤ n)
      | none => false
    message := "Must be no more than " ++ param.getD "undefined" ++ " characters" }

/-- The entries of `this.validators` that are pure string functions.  The
source table also has `pattern`, `match`, `number`, `url` and `date`, which
need a JS regex engine, another field's live DOM value, float parsing, or
the platform date parser; theorems about `validateField` quantify over the
table, so only the validators exercised by the claims are instantiated. -/
def validatorsImpl : String → Option (String → Option String → FVResult)
  | "required" => some (fun v _ => requiredValidator v)
  | "email" => some (fun v _ => emailValidator v)
  | "phone" => some (fun v _ => phoneValidator v)
  | "zip" => some (fun v _ => zipValidator v)
  | "ssn" => some (fun v _ => ssnValidator v)
  | "minLength" => some minLengthValidator
  | "maxLength" => some maxLengthValidator
  | _ => none

/-- The DOM state of a validatable form field as read by `validateField`:
`value`, the `required` attribute, the `data-validate` attribute
(`none` = absent), DOM `minLength`/`maxLength` (−1 when absent), the
`pattern` attribute (`none` = absent/empty) and `title`. -/
structure Field where
  value : String
  required : Bool
  dataValidate : Option String
  minLength : Int
  maxLength : Int
  pattern : Option String
  title : Option String
deriving Repr, DecidableEq

/-- `(field.dataset.validate || '').split(' ').filter(Boolean)`. -/
def validateTypes (dv : Option String) : List String :=
  ((dv.getD "").splitOn " ").filter (fun s => s ≠ "")

/-- First component of `type.split(':')`. -/
def typeName (t : String) : String := (t.splitOn ":").headD ""

/-- Second component of `type.split(':')` (`undefined` = `none`). -/
def typeParam (t : String) : Option String := (t.splitOn ":").get? 1

/-- The condition guarding the required check:
`field.hasAttribute('required') || field.dataset.validate?.includes('required')`
(note: `includes` is a substring test on the attribute string). -/
def requiredApplies (field : Field) : Bool :=
  field.required || field.dataValidate.elim false (fun s => strIncludes s "required")

/-- `validateField(field)`, returning the accumulated error-message list
and the boolean validity.  `vtable` is `this.validators` and `ptest` the
JS regex engine used for the HTML `pattern` attribute.  The sequential
`errors.push` calls of the source become list concatenation in push
order. -/
def validateField (vtable : String → Option (String → Option String → FVResult))
    (ptest : String → String → Bool) (field : Field) : List String × Bool :=
  let value := field.value
  let requiredErrors : List String :=
    if requiredApplies field then
      let result := requiredValidator value
      if !result.valid then [result.message] else []
    else []
  let nonEmptyErrors : List String :=
    if (jsTrim value).length > 0 then
      let fromTypes := (validateTypes field.dataValidate).flatMap (fun t =>
        match vtable (typeName t) with
        | some v =>
          if typeName t ≠ "required" then
            let r := v value (typeParam t)
            if !r.valid then [r.message] else []
          else []
        | none => [])
      let minL :=
        if field.minLength > 0 ∧ (value.length : Int) < field.minLength then
          ["Must be at least " ++ toString field.minLength ++ " characters"]
        else []
      let maxL :=
        if field.maxLength > 0 ∧ (value.length : Int) > field.maxLength then
          ["Must be no more than " ++ toString field.maxLength ++ " characters"]
        else []
      let pat :=
        match field.pattern with
        | some p =>
          if ! ptest p value then [field.title.getD "Please match the requested format"]
          else []
        | none => []
      fromTypes ++ minL ++ maxL ++ pat
    else []
  let errors := requiredErrors ++ nonEmptyErrors
  (errors, errors.isEmpty)

/-- The error text `updateFieldUI` leaves in the field's error container:
`state.errors[0] || ''` when invalid, cleared otherwise. -/
def updateFieldUIText (state : List String × Bool) : String :=
  if !state.2 then state.1.headD "" else ""

/-- Pass (b) of the spec's `validateField` description, as a standalone
function: the failing messages of every validator named in the field's
declared validation-type list, in the declared order (`required` and
unknown names are skipped). -/
def declaredErrorsSpec (vtable : String → Option (String → Option String → FVResult))
    (field : Field) : List String :=
  (validateTypes field.dataValidate).flatMap (fun t =>
    match vtable (typeName t) with
    | some v =>
      if typeName t ≠ "required" then
        if !(v field.value (typeParam t)).valid then [(v field.value (typeParam t)).message]
        else []
      else []
    | none => [])

/-- Pass (c) of the spec's `validateField` description: the HTML-level
minlength / maxlength / pattern constraint messages, in that order. -/
def htmlErrorsSpec (ptest : String → String → Bool) (field : Field) : List String :=
  (if field.minLength > 0 ∧ (field.value.length : Int) < field.minLength then
    ["Must be at least " ++ toString field.minLength ++ " characters"]
   else []) ++
  (if field.maxLength > 0 ∧ (field.value.length : Int) > field.maxLength then
    ["Must be no more than " ++ toString field.maxLength ++ " characters"]
   else []) ++
  (match field.pattern with
   | some p =>
     if ! ptest p field.value then [field.title.getD "Please match the requested format"]
     else []
   | none => [])

/-- A required field with an empty value and no other constraints. -/
def emptyRequiredField : Field :=
  { value := ""
    required := true
    dataValidate := none
    minLength := -1
    maxLength := -1
    pattern := none
    title := none }

/-- A non-required email field holding a whitespace-only value. -/
def whitespaceEmailField : Field :=
  { value := "   "
    required := false
    dataValidate := some "email"
    minLength := -1
    maxLength := -1
    pattern := none
    title := none }

/-! ### Declarative regex semantics (from the spec's regexes)

`EmailMatches`, `ZipMatches` and `PhoneMatches` state membership in the
anchored regular expressions of the spec as explicit decompositions; C7
compares the executable validators against them. -/

/-- `^[^\s@]+@[^\s@]+\.[^\s@]+$` as a decomposition. -/
def EmailMatches (s : String) : Prop :=
  ∃ a b c : List Char,
    s.toList = a ++ '@' :: (b ++ '.' :: c) ∧
    a ≠ [] ∧ b ≠ [] ∧ c ≠ [] ∧
    (∀ ch ∈ a, emailChar ch = true) ∧
    (∀ ch ∈ b, emailChar ch = true) ∧
    (∀ ch ∈ c, emailChar ch = true)

/-- `^\d{5}(-\d{4})?$` as a decomposition. -/
def ZipMatches (s : String) : Prop :=
  (s.toList.length = 5 ∧ ∀ c ∈ s.toList, c.isDigit = true) ∨
  (∃ d e : List Char, s.toList = d ++ '-' :: e ∧ d.length = 5 ∧ e.length = 4 ∧
    (∀ c ∈ d, c.isDigit = true) ∧ (∀ c ∈ e, c.isDigit = true))

/-- `^\(?([0-9]{3})\)?[-.\s]?([0-9]{3})[-.\s]?([0-9]{4})$` as a
decomposition. -/
def PhoneMatches (s : String) : Prop :=
  ∃ op d₁ cp s₁ d₂ s₂ d₃ : List Char,
    s.toList = op ++ d₁ ++ cp ++ s₁ ++ d₂ ++ s₂ ++ d₃ ∧
    (op = [] ∨ op = ['(']) ∧ (cp = [] ∨ cp = [')']) ∧
    (s₁ = [] ∨ ∃ c, isSepChar c = true ∧ s₁ = [c]) ∧
    (s₂ = [] ∨ ∃ c, isSepChar c = true ∧ s₂ = [c]) ∧
    d₁.length = 3 ∧ d₂.length = 3 ∧ d₃.length = 4 ∧
    (∀ c ∈ d₁, c.isDigit = true) ∧ (∀ c ∈ d₂, c.isDigit = true) ∧
    (∀ c ∈ d₃, c.isDigit = true)

/-! ## Debounced filter inputs (PropertyFilter.attachEventListeners,
src/MIGRATION_READY.md)

The three debounced controls (the search input and the two price inputs)
share the single `this.debounceTimeout` handle: every input event runs
`clearTimeout(this.debounceTimeout)` — cancelling whatever control's
handler was pending — and schedules its own handler `this.debounceDelay`
(300 ms) later.  The event-loop semantics is modelled explicitly: a state
carries the current DOM values of the three controls, the committed
`this.filters`, the pending timeout (fire time and which handler), and the
log of `applyFilters()` commits; an input event first lets a due timeout
fire, then handles the event. -/

/-- Which handler the pending shared timeout would run. -/
inductive DebKind where
  | search
  | price
deriving Repr, DecidableEq

/-- An input event on one of the three debounced controls. -/
inductive DebEvent where
  | searchInput (v : String)
  | minInput (v : String)
  | maxInput (v : String)
deriving Repr, DecidableEq

/-- Event-loop state of the debounced part of `PropertyFilter`. -/
structure DebState where
  searchDom : String
  minDom : String
  maxDom : String
  filters : FilterCriteria
  pending : Option (Int × DebKind)
  commits : List FilterCriteria
deriving Repr, DecidableEq

/-- `this.debounceDelay`. -/
def debounceDelay : Int := 300

/-- The search timeout handler:
`this.filters.search = e.target.value.toLowerCase().trim(); this.applyFilters()`,
reading the input's current value. -/
def commitSearch (s : DebState) : DebState :=
  let f := { s.filters with search := jsTrim (jsToLower s.searchDom) }
  { s with filters := f, commits := s.commits ++ [f] }

/-- `handlePriceChange`: both price fields are read and committed together,
empty strings becoming `null`, then `applyFilters()` runs. -/
def commitPrice (s : DebState) : DebState :=
  let f := { s.filters with
    minPrice := if s.minDom != "" then parseIntJS s.minDom else none
    maxPrice := if s.maxDom != "" then parseIntJS s.maxDom else none }
  { s with filters := f, commits := s.commits ++ [f] }

/-- Run the pending timeout handler (unconditionally). -/
def fireTimeout (s : DebState) : DebState :=
  match s.pending with
  | some (_, DebKind.search) => commitSearch { s with pending := none }
  | some (_, DebKind.price) => commitPrice { s with pending := none }
  | none => s

/-- Let the pending timeout fire if its time has come. -/
def fireIfDue (s : DebState) (now : Int) : DebState :=
  match s.pending with
  | some (ft, _) => if ft ≤ now then fireTimeout s else s
  | none => s

/-- Handle one input event at time `t`: capture the value into the control
and replace the shared pending timeout with this control's handler. -/
def applyEvent (s : DebState) (t : Int) (e : DebEvent) : DebState :=
  match e with
  | .searchInput v =>
    { s with searchDom := v, pending := some (t + debounceDelay, DebKind.search) }
  | .minInput v =>
    { s with minDom := v, pending := some (t + debounceDelay, DebKind.price) }
  | .maxInput v =>
    { s with maxDom := v, pending := some (t + debounceDelay, DebKind.price) }

/-- Process a time-ordered list of input events (no final firing). -/
def processEvents : DebState → List (Int × DebEvent) → DebState
  | s, [] => s
  | s, (t, e) :: rest => processEvents (applyEvent (fireIfDue s t) t e) rest

/-- State of a freshly initialized `PropertyFilter`'s debounced part. -/
def initDebState : DebState :=
  { searchDom := ""
    minDom := ""
    maxDom := ""
    filters := defaultFilters
    pending := none
    commits := [] }

/-- A burst of search inputs: one at `t₀` with value `v₀`, then one per
entry of `evs`. -/
def runSearchBurst (s₀ : DebState) (t₀ : Int) (v₀ : String)
    (evs : List (Int × String)) : DebState :=
  processEvents s₀ (((t₀, v₀) :: evs).map (fun p => (p.1, DebEvent.searchInput p.2)))

/-! ## Accordion (src/docs/js/theme-toggle.js)

The accordion state is the `isOpen` flag of each item, plus the
`allowMultiple` option; DOM/ARIA attribute updates and the cosmetic height
animation carry no additional logical state.  Each operation returns the
new state together with the list of `onToggle(index, isOpen)` calls it
makes, in call order. -/

structure Accordion where
  allowMultiple : Bool
  items : List Bool
deriving Repr, DecidableEq

/-- `close(index)`: no-op when out of bounds or already closed; otherwise
clears `isOpen` and fires `onToggle(index, false)`. -/
def closeA (acc : Accordion) (index : Nat) : Accordion × List (Nat × Bool) :=
  if index < acc.items.length then
    if acc.items.getD index false then
      ({ acc with items := acc.items.set index false }, [(index, false)])
    else (acc, [])
  else (acc, [])

/-- The `this.items.forEach((item, i) => { if (i !== index && item.isOpen)
this.close(i) })` loop of `open`, over an explicit list of indices. -/
def closeEach : Accordion → List Nat → Nat → Accordion × List (Nat × Bool)
  | acc, [], _ => (acc, [])
  | acc, i :: rest, index =>
    if i ≠ index ∧ acc.items.getD i false then
      let r₁ := closeA acc i
      let r₂ := closeEach r₁.1 rest index
      (r₂.1, r₁.2 ++ r₂.2)
    else closeEach acc rest index

/-- `open(index)`: no-op when out of bounds or already open; otherwise, in
single-open mode, first closes every other open panel, then opens `index`
and fires `onToggle(index, true)`. -/
def openA (acc : Accordion) (index : Nat) : Accordion × List (Nat × Bool) :=
  if index < acc.items.length then
    if acc.items.getD index false then (acc, [])
    else
      let r₁ :=
        if acc.allowMultiple then (acc, [])
        else closeEach acc (List.range acc.items.length) index
      ({ r₁.1 with items := r₁.1.items.set index true }, r₁.2 ++ [(index, true)])
  else (acc, [])

/-- `toggle(index)`. -/
def toggleA (acc : Accordion) (index : Nat) : Accordion × List (Nat × Bool) :=
  if index < acc.items.length then
    if acc.items.getD index false then closeA acc index
    else openA acc index
  else (acc, [])

/-- Accordion states reachable in single-open mode: `init` is the state
after `init()` registers `n` panels all closed (the `defaultOpen` option is
applied through `open`, so it is covered by `openStep`), and every
user-driven `open`/`close`/`toggle` is a step. -/
inductive ReachableAcc : Accordion → Prop where
  | init (n : Nat) : ReachableAcc ⟨false, List.replicate n false⟩
  | openStep {a : Accordion} (i : Nat) : ReachableAcc a → ReachableAcc (openA a i).1
  | closeStep {a : Accordion} (i : Nat) : ReachableAcc a → ReachableAcc (closeA a i).1
  | toggleStep {a : Accordion} (i : Nat) : ReachableAcc a → ReachableAcc (toggleA a i).1

/-- Number of open panels. -/
def openCount (acc : Accordion) : Nat :=
  ((List.range acc.items.length).filter (fun j => acc.items.getD j false)).length

/-! ## Helper lemmas -/

theorem ceilDiv_mono {a b c : Int} (hc : 0 < c) (h : a ≤ b) :
    ceilDiv a c ≤ ceilDiv b c := by
  unfold ceilDiv
  have := Int.ediv_le_ediv hc (neg_le_neg h)
  omega

theorem filter_eq_self_of_length_eq {l : List Int} {p : Int → Bool}
    (h : (l.filter p).length = l.length) : l.filter p = l :=
  (List.filter_sublist l).eq_of_length h

/-! ## C1, C9: RateLimiter -/

/-- **C1**: `isAllowed(key)` prunes attempts older than `windowMs`; with at
least `maxAttempts` valid attempts left it returns `allowed:false` with
`retryAfter = max 1 ⌈(oldest + windowMs - now)/1000⌉` where `oldest` is the
minimum valid attempt, leaving the map unchanged; otherwise it appends `now`
and returns `allowed:true` with `remainingAttempts` equal to `maxAttempts`
minus the new count.  With `maxAttempts = 3, windowMs = 60000`, three calls
in the window are allowed, the fourth is denied with positive `retryAfter`,
and a call made `windowMs` after the first attempt is allowed again. -/
theorem c1_isAllowed_correct
    (maxAttempts : Nat) (windowMs : Int) (attempts : String → List Int)
    (key : String) (now : Int)
    (hmax : 1 ≤ maxAttempts)
    (hsorted : (attempts key).Sorted (· ≤ ·)) :
    ((validAttemptsOf windowMs now (attempts key)).length ≥ maxAttempts →
      ∃ oldest,
        oldest ∈ validAttemptsOf windowMs now (attempts key) ∧
        (∀ t ∈ validAttemptsOf windowMs now (attempts key), oldest ≤ t) ∧
        (isAllowed maxAttempts windowMs attempts key now).1 =
          { allowed := false
            retryAfter := some (max 1 (ceilDiv (oldest + windowMs - now) 1000))
            attempts := (validAttemptsOf windowMs now (attempts key)).length
            maxAttempts := maxAttempts } ∧
        (isAllowed maxAttempts windowMs attempts key now).2 = attempts) ∧
    ((validAttemptsOf windowMs now (attempts key)).length < maxAttempts →
      (isAllowed maxAttempts windowMs attempts key now).1 =
        { allowed := true
          attempts := (validAttemptsOf windowMs now (attempts key)).length + 1
          maxAttempts := maxAttempts
          remainingAttempts := some ((maxAttempts : Int) -
            ((validAttemptsOf windowMs now (attempts key)).length + 1)) } ∧
      (isAllowed maxAttempts windowMs attempts key now).2 key =
        validAttemptsOf windowMs now (attempts key) ++ [now]) ∧
    ((rlRunCall [] 0).allowed = true ∧
     (rlRunCall [0] 1000).allowed = true ∧
     (rlRunCall [0, 1000] 2000).allowed = true ∧
     (rlRunCall [0, 1000, 2000] 3000).allowed = false ∧
     (rlRunCall [0, 1000, 2000] 3000).retryAfter = some 57 ∧
     (0 : Int) < 57 ∧
     (rlRunCall [0, 1000, 2000, 3000] 60000).allowed = true) := by
  refine ⟨?_, ?_, by decide⟩
  · intro hge
    have hvs : (validAttemptsOf windowMs now (attempts key)).Sorted (· ≤ ·) :=
      List.Pairwise.filter _ hsorted
    have hnil : validAttemptsOf windowMs now (attempts key) ≠ [] := by
      intro h
      rw [h] at hge
      simp at hge
      omega
    obtain ⟨a, tl, hcons⟩ := List.exists_cons_of_ne_nil hnil
    refine ⟨(validAttemptsOf windowMs now (attempts key)).headD 0, ?_, ?_, ?_, ?_⟩
    · rw [hcons]
      exact List.mem_cons_self _ _
    · intro t ht
      rw [hcons] at ht hvs ⊢
      rcases List.mem_cons.mp ht with h | h
      · simp [h]
      · simpa using (List.sorted_cons.mp hvs).1 t h
    · simp only [isAllowed]
      rw [if_pos hge]
    · simp only [isAllowed]
      rw [if_pos hge]
  · intro hlt
    have hcond : ¬ ((validAttemptsOf windowMs now (attempts key)).length ≥ maxAttempts) :=
      not_le.mpr hlt
    constructor
    · simp only [isAllowed]
      rw [if_neg hcond]
      simp
    · simp only [isAllowed]
      rw [if_neg hcond]
      simp

/-- Witness for C1 at a concrete input: a fresh limiter allows the first
call and records one attempt. -/
theorem c1_isAllowed_correct_witness :
    (isAllowed 3 60000 (fun _ => []) "k" 0).1 =
      { allowed := true, attempts := 1, maxAttempts := 3,
        remainingAttempts := some 2 } := by
  have h := (c1_isAllowed_correct 3 60000 (fun _ => []) "k" 0 (by norm_num)
    (by simp)).2.1 (by decide)
  rw [h.1]
  decide

/-- **C9**: a denied `isAllowed(key)` call returns the attempt map unchanged
(the denied attempt is not recorded and the pruned list is not written back),
so, absent new allowed calls, a later denied call for the same key reports a
`retryAfter` no larger than the earlier one.  The hypothesis
`(attempts key).length ≤ maxAttempts` holds for every map the limiter itself
builds, since attempts are only appended while the count is below the limit. -/
theorem c9_denied_call_leaves_state_unchanged
    (maxAttempts : Nat) (windowMs : Int) (attempts : String → List Int)
    (key : String) (now₁ now₂ : Int)
    (hlen : (attempts key).length ≤ maxAttempts)
    (hle : now₁ ≤ now₂)
    (hdenied₁ : (isAllowed maxAttempts windowMs attempts key now₁).1.allowed = false) :
    (isAllowed maxAttempts windowMs attempts key now₁).2 = attempts ∧
    ((isAllowed maxAttempts windowMs attempts key now₂).1.allowed = false →
      ∃ r₁ r₂ : Int,
        (isAllowed maxAttempts windowMs attempts key now₁).1.retryAfter = some r₁ ∧
        (isAllowed maxAttempts windowMs attempts key now₂).1.retryAfter = some r₂ ∧
        r₂ ≤ r₁) := by
  have hbranch : ∀ now : Int,
      (isAllowed maxAttempts windowMs attempts key now).1.allowed = false →
      (validAttemptsOf windowMs now (attempts key)).length ≥ maxAttempts := by
    intro now hal
    by_contra hlt
    simp only [isAllowed] at hal
    rw [if_neg hlt] at hal
    simp at hal
  have hge₁ := hbranch now₁ hdenied₁
  have hfull : ∀ now : Int,
      (validAttemptsOf windowMs now (attempts key)).length ≥ maxAttempts →
      validAttemptsOf windowMs now (attempts key) = attempts key := by
    intro now hge
    apply filter_eq_self_of_length_eq
    have h₁ := (List.filter_sublist (p := fun t => decide (now - t < windowMs))
      (attempts key)).length_le
    simp only [validAttemptsOf] at hge ⊢
    omega
  constructor
  · simp only [isAllowed]
    rw [if_pos hge₁]
  · intro hdenied₂
    have hge₂ := hbranch now₂ hdenied₂
    have hf₁ := hfull now₁ hge₁
    have hf₂ := hfull now₂ hge₂
    refine ⟨max 1 (ceilDiv ((validAttemptsOf windowMs now₁ (attempts key)).headD 0
        + windowMs - now₁) 1000),
      max 1 (ceilDiv ((validAttemptsOf windowMs now₂ (attempts key)).headD 0
        + windowMs - now₂) 1000), ?_, ?_, ?_⟩
    · simp only [isAllowed]
      rw [if_pos hge₁]
    · simp only [isAllowed]
      rw [if_pos hge₂]
    · rw [hf₁, hf₂]
      exact max_le_max le_rfl (ceilDiv_mono (by norm_num) (by omega))

/-- Witness for C9 at a concrete input: key `"k"` holds three attempts at
times 0, 1000, 2000 of a `RateLimiter(3, 60000)`; calls at 3000 and 4000 are
both denied, the state is unchanged, and `retryAfter` does not increase. -/
theorem c9_denied_call_leaves_state_unchanged_witness :
    (isAllowed 3 60000 (fun _ => [0, 1000, 2000]) "k" 3000).2 =
      (fun _ => [0, 1000, 2000]) ∧
    ((isAllowed 3 60000 (fun _ => [0, 1000, 2000]) "k" 4000).1.allowed = false →
      ∃ r₁ r₂ : Int,
        (isAllowed 3 60000 (fun _ => [0, 1000, 2000]) "k" 3000).1.retryAfter = some r₁ ∧
        (isAllowed 3 60000 (fun _ => [0, 1000, 2000]) "k" 4000).1.retryAfter = some r₂ ∧
        r₂ ≤ r₁) :=
  c9_denied_call_leaves_state_unchanged 3 60000 (fun _ => [0, 1000, 2000]) "k"
    3000 4000 (by decide) (by decide) (by decide)

/-! ## C3, C4, C5: PropertyFilter -/

theorem optionFail_eq_true {α : Type} (o : Option α) (g : α → Bool) :
    o.elim false g = true ↔ ∃ b, o = some b ∧ g b = true := by
  cases o <;> simp

theorem matchesFilters_eq_true (f : FilterCriteria) (prop : Property) :
    matchesFilters f prop = true ↔
      ((f.search ≠ "" → strIncludes (searchableText prop) f.search = true) ∧
       (∀ b, f.bedrooms = some b → b ≤ prop.bedrooms) ∧
       (∀ b, f.bathrooms = some b → b ≤ prop.bathrooms) ∧
       (f.propertyType ≠ "" → prop.type = f.propertyType) ∧
       (∀ m, f.minPrice = some m → m ≤ prop.price_amount) ∧
       (∀ m, f.maxPrice = some m → prop.price_amount ≤ m) ∧
       (f.tags ≠ [] → hasAllTags f.tags prop.tags = true)) := by
  simp only [matchesFilters]
  split_ifs with h₁ h₂ h₃ h₄ h₅ h₆ h₇
  · simp only [false_iff]
    rw [Bool.and_eq_true, bne_iff_ne, Bool.not_eq_true'] at h₁
    intro hall
    exact absurd (hall.1 h₁.1) (by simp [h₁.2])
  · rw [optionFail_eq_true] at h₂
    obtain ⟨b, hb, hlt⟩ := h₂
    rw [decide_eq_true_eq] at hlt
    simp only [false_iff]
    intro hall
    exact absurd (hall.2.1 b hb) (by omega)
  · rw [optionFail_eq_true] at h₃
    obtain ⟨b, hb, hlt⟩ := h₃
    rw [decide_eq_true_eq] at hlt
    simp only [false_iff]
    intro hall
    exact absurd (hall.2.2.1 b hb) (by omega)
  · rw [Bool.and_eq_true, bne_iff_ne, bne_iff_ne] at h₄
    simp only [false_iff]
    intro hall
    exact h₄.2 (hall.2.2.2.1 h₄.1)
  · rw [optionFail_eq_true] at h₅
    obtain ⟨m, hm, hlt⟩ := h₅
    rw [decide_eq_true_eq] at hlt
    simp only [false_iff]
    intro hall
    have := hall.2.2.2.2.1 m hm
    omega
  · rw [optionFail_eq_true] at h₆
    obtain ⟨m, hm, hlt⟩ := h₆
    rw [decide_eq_true_eq] at hlt
    simp only [false_iff]
    intro hall
    have := hall.2.2.2.2.2.1 m hm
    omega
  · rw [Bool.and_eq_true, decide_eq_true_eq, Bool.not_eq_true'] at h₇
    simp only [false_iff]
    intro hall
    have := hall.2.2.2.2.2.2 (List.ne_nil_of_length_pos h₇.1)
    rw [this] at h₇
    exact Bool.noConfusion h₇.2
  · simp only [true_iff]
    refine ⟨fun hs => ?_, fun b hb => ?_, fun b hb => ?_, fun ht => ?_,
      fun m hm => ?_, fun m hm => ?_, fun htags => ?_⟩
    · rw [Bool.and_eq_true, bne_iff_ne, Bool.not_eq_true'] at h₁
      push_neg at h₁
      rcases Bool.eq_false_or_eq_true (strIncludes (searchableText prop) f.search)
        with h | h
      · exact h
      · exact absurd h (h₁ hs)
    · by_contra hlt
      exact h₂ ((optionFail_eq_true _ _).mpr ⟨b, hb, decide_eq_true (by omega)⟩)
    · by_contra hlt
      exact h₃ ((optionFail_eq_true _ _).mpr ⟨b, hb, decide_eq_true (by omega)⟩)
    · by_contra hne
      refine h₄ ?_
      rw [Bool.and_eq_true, bne_iff_ne, bne_iff_ne]
      exact ⟨ht, hne⟩
    · by_contra hlt
      exact h₅ ((optionFail_eq_true _ _).mpr ⟨m, hm, decide_eq_true (by omega)⟩)
    · by_contra hlt
      exact h₆ ((optionFail_eq_true _ _).mpr ⟨m, hm, decide_eq_true (by omega)⟩)
    · rcases Bool.eq_false_or_eq_true (hasAllTags f.tags prop.tags) with h | h
      · exact h
      · exfalso
        refine h₇ ?_
        rw [Bool.and_eq_true, decide_eq_true_eq, Bool.not_eq_true']
        exact ⟨List.length_pos.mpr htags, h⟩

/-- **C3**: `applyFilters` with the default/empty criteria (all numeric
fields `null`, `propertyType` and `search` empty, no selected tags) returns
the property list unchanged: empty criteria matches every property. -/
theorem c3_empty_criteria_is_identity (P : List Property) :
    applyFilters defaultFilters P = P := by
  have h : ∀ p : Property, matchesFilters defaultFilters p = true := by
    intro p
    rw [matchesFilters_eq_true]
    refine ⟨fun hs => absurd rfl hs, ?_, ?_, fun ht => absurd rfl ht, ?_, ?_,
      fun ht => absurd rfl ht⟩ <;>
      · intro x hx
        simp [defaultFilters] at hx
  unfold applyFilters
  exact List.filter_eq_self.mpr (fun a _ => h a)

/-- **C4**: with a non-empty selected tag set, a property passes the tag
test of `applyFilters` iff every selected tag is among the property's tags
(AND semantics); a property in the filtered result therefore carries all
selected tags, and appending a tag to the selected set never increases the
size of the filtered result. -/
theorem c4_tag_semantics_and_monotonicity
    (f : FilterCriteria) (prop : Property) (P : List Property) (t : String)
    (htags : f.tags ≠ []) :
    (hasAllTags f.tags prop.tags = true ↔ ∀ tag ∈ f.tags, tag ∈ prop.tags) ∧
    (matchesFilters f prop = true → ∀ tag ∈ f.tags, tag ∈ prop.tags) ∧
    (applyFilters { f with tags := f.tags ++ [t] } P).length ≤
      (applyFilters f P).length := by
  have hiff : ∀ req ptags : List String,
      hasAllTags req ptags = true ↔ ∀ tag ∈ req, tag ∈ ptags := by
    intro req ptags
    simp [hasAllTags, List.all_eq_true]
  refine ⟨hiff f.tags prop.tags, fun hm => ?_, ?_⟩
  · have := ((matchesFilters_eq_true f prop).mp hm).2.2.2.2.2.2 htags
    exact (hiff f.tags prop.tags).mp this
  · have hp : ∀ p : Property,
        matchesFilters { f with tags := f.tags ++ [t] } p = true →
        matchesFilters f p = true := by
      intro p hp
      rw [matchesFilters_eq_true] at hp ⊢
      obtain ⟨hs, hb, hba, hpt, hmin, hmax, htg⟩ := hp
      refine ⟨hs, hb, hba, hpt, hmin, hmax, fun hne => ?_⟩
      have hall := htg (by simp)
      rw [hiff] at hall ⊢
      intro tag htag
      exact hall tag (List.mem_append_left _ htag)
    have hsub : List.Sublist
        (P.filter (fun p => matchesFilters { f with tags := f.tags ++ [t] } p))
        (P.filter (fun p => matchesFilters f p)) :=
      List.monotone_filter_right P (fun a ha => hp a ha)
    exact hsub.length_le

/-- Witness for C4 at a concrete input: requiring both sample tags matches
the sample property, and appending a tag does not grow the result. -/
theorem c4_tag_semantics_and_monotonicity_witness :
    (hasAllTags ["Section 8"] sampleProperty.tags = true ↔
      ∀ tag ∈ ["Section 8"], tag ∈ sampleProperty.tags) ∧
    (matchesFilters { defaultFilters with tags := ["Section 8"] } sampleProperty = true →
      ∀ tag ∈ ["Section 8"], tag ∈ sampleProperty.tags) ∧
    (applyFilters { defaultFilters with tags := ["Section 8"] ++ ["Pet Friendly"] }
        [sampleProperty, sampleProperty2]).length ≤
      (applyFilters { defaultFilters with tags := ["Section 8"] }
        [sampleProperty, sampleProperty2]).length :=
  c4_tag_semantics_and_monotonicity { defaultFilters with tags := ["Section 8"] }
    sampleProperty [sampleProperty, sampleProperty2] "Pet Friendly" (by decide)

/-- **C5**: filtering is order preserving — if `a` precedes `b` in the
property list and both pass the criteria then `a` precedes `b` in
`filteredProperties` — and on a non-empty filtered list `render` emits one
card per filtered property, in the same relative order. -/
theorem c5_filter_stable_and_render_in_order
    (f : FilterCriteria) (P l₁ l₂ : List Property) (a b : Property)
    (hP : P = l₁ ++ a :: l₂) (hb : b ∈ l₂)
    (ha : matchesFilters f a = true) (hbpass : matchesFilters f b = true) :
    (∃ m₁ m₂, applyFilters f P = m₁ ++ a :: m₂ ∧ b ∈ m₂) ∧
    (∀ Q : List Property, applyFilters f Q ≠ [] →
      ∃ cs, render (applyFilters f Q) = RenderOutput.cards cs ∧
        cs.map (fun c => c.propertyId) =
          (applyFilters f Q).map (fun p => if p.id != "" then p.id else p.slug) ∧
        cs.length = (applyFilters f Q).length) := by
  constructor
  · subst hP
    refine ⟨l₁.filter (fun p => matchesFilters f p),
      l₂.filter (fun p => matchesFilters f p), ?_, ?_⟩
    · unfold applyFilters
      rw [List.filter_append, List.filter_cons_of_pos ha]
    · exact List.mem_filter.mpr ⟨hb, hbpass⟩
  · intro Q hne
    unfold render
    rw [if_neg (by simpa using List.length_pos.mpr hne |>.ne')]
    refine ⟨_, rfl, ?_, ?_⟩
    · rw [List.map_map]
      have h2 : ((applyFilters f Q).enum.map Prod.snd).map
          (fun p : Property => if p.id != "" then p.id else p.slug) =
          (applyFilters f Q).map (fun p => if p.id != "" then p.id else p.slug) := by
        rw [List.enum_map_snd]
      rw [← h2, List.map_map]
      rfl
    · rw [List.length_map, List.enum_length]

/-- Witness for C5 at a concrete input: both sample properties pass the
empty criteria and keep their order. -/
theorem c5_filter_stable_and_render_in_order_witness :
    ∃ m₁ m₂, applyFilters defaultFilters [sampleProperty, sampleProperty2] =
      m₁ ++ sampleProperty :: m₂ ∧ sampleProperty2 ∈ m₂ :=
  (c5_filter_stable_and_render_in_order defaultFilters
    [sampleProperty, sampleProperty2] [] [sampleProperty2]
    sampleProperty sampleProperty2 rfl (by decide) (by decide) (by decide)).1

/-! ## C7: the built-in validators match their regexes -/

theorem mOne_mem {p : Char → Bool} {cs r : List Char} :
    r ∈ mOne p cs ↔ ∃ c, p c = true ∧ cs = c :: r := by
  cases cs with
  | nil => simp [mOne]
  | cons c rest =>
    simp only [mOne]
    split_ifs with h
    · constructor
      · intro hr
        rw [List.mem_singleton] at hr
        exact ⟨c, h, by rw [hr]⟩
      · rintro ⟨c', hc', heq⟩
        injection heq with h1 h2
        simp [h2]
    · constructor
      · intro hr
        simp at hr
      · rintro ⟨c', hc', heq⟩
        injection heq with h1 h2
        subst h1
        exact absurd hc' (by simp [h])

theorem mPlus_mem {p : Char → Bool} : ∀ {cs r : List Char},
    r ∈ mPlus p cs ↔ ∃ d, d ≠ [] ∧ (∀ c ∈ d, p c = true) ∧ cs = d ++ r := by
  intro cs
  induction cs with
  | nil =>
    intro r
    constructor
    · intro hr
      exact absurd hr (List.not_mem_nil r)
    · rintro ⟨d, hd, -, heq⟩
      exact absurd (List.append_eq_nil.mp heq.symm).1 hd
  | cons c rest ih =>
    intro r
    simp only [mPlus]
    split_ifs with h
    · constructor
      · intro hr
        rcases List.mem_cons.mp hr with h1 | h1
        · exact ⟨[c], by simp, by simpa using h, by simp [h1]⟩
        · obtain ⟨d, hd, hall, heq⟩ := ih.mp h1
          refine ⟨c :: d, by simp, ?_, by simp [heq]⟩
          intro x hx
          rcases List.mem_cons.mp hx with rfl | hx
          · exact h
          · exact hall x hx
      · rintro ⟨d, hd, hall, heq⟩
        cases d with
        | nil => exact absurd rfl hd
        | cons d0 dt =>
          injection heq with h1 h2
          subst h1
          cases dt with
          | nil =>
            exact List.mem_cons.mpr (Or.inl (by simpa using h2.symm))
          | cons e et =>
            refine List.mem_cons.mpr (Or.inr (ih.mpr ⟨e :: et, by simp, ?_, h2⟩))
            intro x hx
            exact hall x (List.mem_cons_of_mem _ hx)
    · constructor
      · intro hr
        simp at hr
      · rintro ⟨d, hd, hall, heq⟩
        cases d with
        | nil => exact absurd rfl hd
        | cons d0 dt =>
          injection heq with h1 h2
          subst h1
          exact absurd (hall c (by simp)) (by simpa using h)

theorem mOpt_mem {p : Char → Bool} {cs r : List Char} :
    r ∈ mOpt p cs ↔ r = cs ∨ ∃ c, p c = true ∧ cs = c :: r := by
  cases cs with
  | nil =>
    simp [mOpt]
  | cons c rest =>
    simp only [mOpt]
    split_ifs with h
    · constructor
      · intro hr
        rcases List.mem_cons.mp hr with h1 | h1
        · exact Or.inl h1
        · rw [List.mem_singleton] at h1
          exact Or.inr ⟨c, h, by rw [h1]⟩
      · rintro (rfl | ⟨c', hc', heq⟩)
        · exact List.mem_cons_self _ _
        · injection heq with h1 h2
          simp [h2]
    · constructor
      · intro hr
        rw [List.mem_singleton] at hr
        exact Or.inl hr
      · rintro (rfl | ⟨c', hc', heq⟩)
        · exact List.mem_singleton.mpr rfl
        · injection heq with h1 h2
          subst h1
          exact absurd hc' (by simpa using h)

theorem mExactly_mem {p : Char → Bool} : ∀ {n : Nat} {cs r : List Char},
    r ∈ mExactly n p cs ↔
      ∃ d, d.length = n ∧ (∀ c ∈ d, p c = true) ∧ cs = d ++ r := by
  intro n
  induction n with
  | zero =>
    intro cs r
    simp only [mExactly, List.mem_singleton]
    constructor
    · rintro rfl
      exact ⟨[], rfl, by simp, rfl⟩
    · rintro ⟨d, hd, -, heq⟩
      rw [List.length_eq_zero.mp hd] at heq
      simpa using heq.symm
  | succ n ih =>
    intro cs r
    cases cs with
    | nil =>
      constructor
      · intro hr
        exact absurd hr (List.not_mem_nil r)
      · rintro ⟨d, hd, -, heq⟩
        have := List.append_eq_nil.mp heq.symm
        simp [this.1] at hd
    | cons c rest =>
      simp only [mExactly]
      split_ifs with h
      · constructor
        · intro hr
          obtain ⟨d, hd, hall, heq⟩ := ih.mp hr
          refine ⟨c :: d, by simp [hd], ?_, by simp [heq]⟩
          intro x hx
          rcases List.mem_cons.mp hx with rfl | hx
          · exact h
          · exact hall x hx
        · rintro ⟨d, hd, hall, heq⟩
          cases d with
          | nil => simp at hd
          | cons d0 dt =>
            injection heq with h1 h2
            subst h1
            refine ih.mpr ⟨dt, by simpa using hd, ?_, h2⟩
            intro x hx
            exact hall x (List.mem_cons_of_mem _ hx)
      · constructor
        · intro hr
          simp at hr
        · rintro ⟨d, hd, hall, heq⟩
          cases d with
          | nil => simp at hd
          | cons d0 dt =>
            injection heq with h1 h2
            subst h1
            exact absurd (hall c (by simp)) (by simpa using h)

theorem requiredValidator_valid_iff (s : String) :
    (requiredValidator s).valid = true ↔ jsTrim s ≠ "" := by
  simp only [requiredValidator, decide_eq_true_eq]
  cases hjt : jsTrim s with
  | mk l =>
    cases l <;> simp [String.length, String.ext_iff]

theorem emailValidator_valid_iff (s : String) :
    (emailValidator s).valid = true ↔ EmailMatches s := by
  simp only [emailValidator, decide_eq_true_eq, EmailMatches]
  constructor
  · intro h
    obtain ⟨r₄, hr₄, hlast⟩ := List.mem_flatMap.mp h
    obtain ⟨r₃, hr₃, hr₄'⟩ := List.mem_flatMap.mp hr₄
    obtain ⟨r₂, hr₂, hr₃'⟩ := List.mem_flatMap.mp hr₃
    obtain ⟨r₁, hr₁, hr₂'⟩ := List.mem_flatMap.mp hr₂
    obtain ⟨a, ha, hallA, hs₁⟩ := mPlus_mem.mp hr₁
    obtain ⟨cAt, hAt, hs₂⟩ := mOne_mem.mp hr₂'
    obtain ⟨b, hb, hallB, hs₃⟩ := mPlus_mem.mp hr₃'
    obtain ⟨cDot, hDot, hs₄⟩ := mOne_mem.mp hr₄'
    obtain ⟨c, hc, hallC, hs₅⟩ := mPlus_mem.mp hlast
    have hAt' : cAt = '@' := of_decide_eq_true hAt
    have hDot' : cDot = '.' := of_decide_eq_true hDot
    subst hAt' hDot'
    refine ⟨a, b, c, ?_, ha, hb, hc, hallA, hallB, hallC⟩
    rw [hs₁, hs₂, hs₃, hs₄, hs₅, List.append_nil]
  · rintro ⟨a, b, c, heq, ha, hb, hc, hallA, hallB, hallC⟩
    refine List.mem_flatMap.mpr ⟨c, ?_,
      mPlus_mem.mpr ⟨c, hc, hallC, (List.append_nil c).symm⟩⟩
    refine List.mem_flatMap.mpr ⟨'.' :: c, ?_,
      mOne_mem.mpr ⟨'.', by decide, rfl⟩⟩
    refine List.mem_flatMap.mpr ⟨b ++ '.' :: c, ?_,
      mPlus_mem.mpr ⟨b, hb, hallB, rfl⟩⟩
    refine List.mem_flatMap.mpr ⟨'@' :: (b ++ '.' :: c), ?_,
      mOne_mem.mpr ⟨'@', by decide, rfl⟩⟩
    exact mPlus_mem.mpr ⟨a, ha, hallA, heq⟩

theorem zipValidator_valid_iff (s : String) :
    (zipValidator s).valid = true ↔ ZipMatches s := by
  simp only [zipValidator, decide_eq_true_eq, ZipMatches]
  constructor
  · intro h
    obtain ⟨r₅, hr₅, hrest⟩ := List.mem_flatMap.mp h
    obtain ⟨d, hd, hallD, hs₁⟩ := mExactly_mem.mp hr₅
    rcases List.mem_cons.mp hrest with h1 | h1
    · left
      rw [hs₁, ← h1, List.append_nil]
      exact ⟨hd, hallD⟩
    · obtain ⟨r₆, hr₆, hfour⟩ := List.mem_flatMap.mp h1
      obtain ⟨cDash, hDash, hs₂⟩ := mOne_mem.mp hr₆
      obtain ⟨e, he, hallE, hs₃⟩ := mExactly_mem.mp hfour
      have hDash' : cDash = '-' := of_decide_eq_true hDash
      subst hDash'
      right
      refine ⟨d, e, ?_, hd, he, hallD, hallE⟩
      rw [hs₁, hs₂, hs₃, List.append_nil]
  · rintro (⟨hlen, hall⟩ | ⟨d, e, heq, hd, he, hallD, hallE⟩)
    · refine List.mem_flatMap.mpr ⟨[], mExactly_mem.mpr
        ⟨s.toList, hlen, hall, (List.append_nil _).symm⟩, ?_⟩
      exact List.mem_cons_self _ _
    · refine List.mem_flatMap.mpr ⟨'-' :: e, mExactly_mem.mpr
        ⟨d, hd, hallD, heq⟩, ?_⟩
      refine List.mem_cons.mpr (Or.inr (List.mem_flatMap.mpr ⟨e,
        mOne_mem.mpr ⟨'-', by decide, rfl⟩,
        mExactly_mem.mpr ⟨e, he, hallE, (List.append_nil e).symm⟩⟩))

theorem mOpt_mem' {p : Char → Bool} {cs r : List Char} :
    r ∈ mOpt p cs ↔
      ∃ o, (o = [] ∨ ∃ c, p c = true ∧ o = [c]) ∧ cs = o ++ r := by
  rw [mOpt_mem]
  constructor
  · rintro (rfl | ⟨c, hc, rfl⟩)
    · exact ⟨[], Or.inl rfl, rfl⟩
    · exact ⟨[c], Or.inr ⟨c, hc, rfl⟩, rfl⟩
  · rintro ⟨o, (rfl | ⟨c, hc, rfl⟩), rfl⟩
    · exact Or.inl rfl
    · exact Or.inr ⟨c, hc, rfl⟩

theorem phoneValidator_valid_iff (s : String) :
    (phoneValidator s).valid = true ↔ PhoneMatches s := by
  simp only [phoneValidator, decide_eq_true_eq, PhoneMatches]
  constructor
  · intro h
    obtain ⟨r₆, hr₆, hlast⟩ := List.mem_flatMap.mp h
    obtain ⟨r₅, hr₅, hr₆'⟩ := List.mem_flatMap.mp hr₆
    obtain ⟨r₄, hr₄, hr₅'⟩ := List.mem_flatMap.mp hr₅
    obtain ⟨r₃, hr₃, hr₄'⟩ := List.mem_flatMap.mp hr₄
    obtain ⟨r₂, hr₂, hr₃'⟩ := List.mem_flatMap.mp hr₃
    obtain ⟨r₁, hr₁, hr₂'⟩ := List.mem_flatMap.mp hr₂
    obtain ⟨op, hopAlt, hs₁⟩ := mOpt_mem'.mp hr₁
    obtain ⟨d₁, hd₁, hallD₁, hs₂⟩ := mExactly_mem.mp hr₂'
    obtain ⟨cp, hcpAlt, hs₃⟩ := mOpt_mem'.mp hr₃'
    obtain ⟨s₁, hs₁Alt, hs₄⟩ := mOpt_mem'.mp hr₄'
    obtain ⟨d₂, hd₂, hallD₂, hs₅⟩ := mExactly_mem.mp hr₅'
    obtain ⟨s₂, hs₂Alt, hs₆⟩ := mOpt_mem'.mp hr₆'
    obtain ⟨d₃, hd₃, hallD₃, hs₇⟩ := mExactly_mem.mp hlast
    refine ⟨op, d₁, cp, s₁, d₂, s₂, d₃, ?_, ?_, ?_, hs₁Alt, hs₂Alt,
      hd₁, hd₂, hd₃, hallD₁, hallD₂, hallD₃⟩
    · rw [hs₁, hs₂, hs₃, hs₄, hs₅, hs₆, hs₇, List.append_nil]
      simp [List.append_assoc]
    · rcases hopAlt with rfl | ⟨c, hc, rfl⟩
      · exact Or.inl rfl
      · exact Or.inr (by rw [of_decide_eq_true hc])
    · rcases hcpAlt with rfl | ⟨c, hc, rfl⟩
      · exact Or.inl rfl
      · exact Or.inr (by rw [of_decide_eq_true hc])
  · rintro ⟨op, d₁, cp, s₁, d₂, s₂, d₃, heq, hop, hcp, hs₁, hs₂,
      hd₁, hd₂, hd₃, hallD₁, hallD₂, hallD₃⟩
    refine List.mem_flatMap.mpr ⟨d₃, ?_,
      mExactly_mem.mpr ⟨d₃, hd₃, hallD₃, (List.append_nil d₃).symm⟩⟩
    refine List.mem_flatMap.mpr ⟨s₂ ++ d₃, ?_, mOpt_mem'.mpr ⟨s₂, ?_, rfl⟩⟩
    swap
    · rcases hs₂ with rfl | ⟨c, hc, rfl⟩
      · exact Or.inl rfl
      · exact Or.inr ⟨c, hc, rfl⟩
    refine List.mem_flatMap.mpr ⟨d₂ ++ (s₂ ++ d₃), ?_,
      mExactly_mem.mpr ⟨d₂, hd₂, hallD₂, rfl⟩⟩
    refine List.mem_flatMap.mpr ⟨s₁ ++ (d₂ ++ (s₂ ++ d₃)), ?_,
      mOpt_mem'.mpr ⟨s₁, ?_, rfl⟩⟩
    swap
    · rcases hs₁ with rfl | ⟨c, hc, rfl⟩
      · exact Or.inl rfl
      · exact Or.inr ⟨c, hc, rfl⟩
    refine List.mem_flatMap.mpr ⟨cp ++ (s₁ ++ (d₂ ++ (s₂ ++ d₃))), ?_,
      mOpt_mem'.mpr ⟨cp, ?_, rfl⟩⟩
    swap
    · rcases hcp with rfl | rfl
      · exact Or.inl rfl
      · exact Or.inr ⟨')', by decide, rfl⟩
    refine List.mem_flatMap.mpr ⟨d₁ ++ (cp ++ (s₁ ++ (d₂ ++ (s₂ ++ d₃)))), ?_,
      mExactly_mem.mpr ⟨d₁, hd₁, hallD₁, rfl⟩⟩
    refine mOpt_mem'.mpr ⟨op, ?_, by simpa [List.append_assoc] using heq⟩
    rcases hop with rfl | rfl
    · exact Or.inl rfl
    · exact Or.inr ⟨'(', by decide, rfl⟩

/-- **C7**: the built-in validators are pure total functions with exactly
the regex semantics of the spec: `required` accepts exactly the strings
that are non-empty after trimming, `email` exactly the members of
`^[^\s@]+@[^\s@]+\.[^\s@]+$`, `zip` exactly those of `^\d{5}(-\d{4})?$`,
`phone` exactly those of
`^\(?([0-9]{3})\)?[-.\s]?([0-9]{3})[-.\s]?([0-9]{4})$`; in particular
`email("a@b.co")` is valid, `email("bad")` invalid, `zip("75701")` valid,
`zip("757")` invalid and `phone("903-555-1234")` valid. -/
theorem c7_builtin_validators_exact_semantics :
    (∀ s : String, (requiredValidator s).valid = true ↔ jsTrim s ≠ "") ∧
    (∀ s : String, (emailValidator s).valid = true ↔ EmailMatches s) ∧
    (∀ s : String, (zipValidator s).valid = true ↔ ZipMatches s) ∧
    (∀ s : String, (phoneValidator s).valid = true ↔ PhoneMatches s) ∧
    (emailValidator "a@b.co").valid = true ∧
    (emailValidator "bad").valid = false ∧
    (zipValidator "75701").valid = true ∧
    (zipValidator "757").valid = false ∧
    (phoneValidator "903-555-1234").valid = true :=
  ⟨requiredValidator_valid_iff, emailValidator_valid_iff,
   zipValidator_valid_iff, phoneValidator_valid_iff,
   by decide, by decide, by decide, by decide, by decide⟩

/-! ## C6, C10: validateField -/

theorem string_length_pos_of_ne_empty {s : String} (h : s ≠ "") :
    0 < s.length := by
  cases s with
  | mk l =>
    cases l with
    | nil => exact absurd rfl h
    | cons c t => simp [String.length]

/-- **C6**: `validateField` runs the required check first when it applies;
with an empty trimmed value all other validation is skipped, so the error
list is exactly the required message (or nothing); with a non-empty value
the error list is the declared validators' failing messages in declared
order followed by the HTML-level minlength/maxlength/pattern messages; the
return value is `true` exactly when the accumulated error list is empty,
and the UI shows only the first accumulated message. -/
theorem c6_validateField_pipeline
    (vtable : String → Option (String → Option String → FVResult))
    (ptest : String → String → Bool) (field : Field) :
    ((validateField vtable ptest field).2 = true ↔
      (validateField vtable ptest field).1 = []) ∧
    (jsTrim field.value = "" →
      (validateField vtable ptest field).1 =
        (if requiredApplies field then ["This field is required"] else [])) ∧
    (jsTrim field.value ≠ "" →
      (validateField vtable ptest field).1 =
        declaredErrorsSpec vtable field ++ htmlErrorsSpec ptest field) ∧
    ((validateField vtable ptest field).2 = false →
      updateFieldUIText (validateField vtable ptest field) =
        (validateField vtable ptest field).1.headD "") := by
  refine ⟨?_, ?_, ?_, ?_⟩
  · simp only [validateField]
    exact List.isEmpty_iff
  · intro hempty
    simp only [validateField, requiredValidator, hempty]
    norm_num
  · intro hne
    have hpos : 0 < (jsTrim field.value).length :=
      string_length_pos_of_ne_empty hne
    have hvalid : (requiredValidator field.value).valid = true := by
      simp only [requiredValidator]
      exact decide_eq_true hpos
    simp only [validateField, hvalid, Bool.not_true, if_pos hpos,
      Bool.false_eq_true, if_false, ite_self, List.nil_append,
      declaredErrorsSpec, htmlErrorsSpec, List.append_assoc]
  · intro hinvalid
    simp only [updateFieldUIText, hinvalid, Bool.not_false, if_pos]

/-- Witness for C6 at a concrete input: a required field with an empty
value accumulates exactly the required message. -/
theorem c6_validateField_pipeline_witness :
    (validateField validatorsImpl (fun _ _ => false) emptyRequiredField).1 =
      ["This field is required"] := by
  have h := (c6_validateField_pipeline validatorsImpl (fun _ _ => false)
    emptyRequiredField).2.1 (by decide)
  rw [h]
  decide

/-- **C10**: for a field that is not required (neither the attribute nor a
`required` substring of `data-validate`), an empty or whitespace-only value
makes `validateField` return `true` with an empty error list, whatever
validators are declared — in particular a whitespace-only value in a field
declared as `email` is reported valid — because every named validator and
every HTML-level constraint is skipped when the trimmed value is empty. -/
theorem c10_optional_empty_value_always_valid
    (vtable : String → Option (String → Option String → FVResult))
    (ptest : String → String → Bool) (field : Field)
    (hreq : field.required = false)
    (hdv : field.dataValidate.elim false (fun s => strIncludes s "required") = false)
    (hempty : jsTrim field.value = "") :
    validateField vtable ptest field = ([], true) ∧
    validateField validatorsImpl (fun _ _ => false) whitespaceEmailField =
      ([], true) := by
  constructor
  · simp only [validateField, requiredApplies, hreq, hdv, hempty,
      Bool.or_self, Bool.false_eq_true, if_false]
    norm_num
  · decide

/-- Witness for C10 at a concrete input: the whitespace-only email field. -/
theorem c10_optional_empty_value_always_valid_witness :
    validateField validatorsImpl (fun _ _ => false) whitespaceEmailField =
      ([], true) :=
  (c10_optional_empty_value_always_valid validatorsImpl (fun _ _ => false)
    whitespaceEmailField (by decide) (by decide) (by decide)).1

/-! ## C8: Accordion single-open mode -/

theorem getD_set_of_ne {l : List Bool} {i j : Nat} (a d : Bool) (h : i ≠ j) :
    (l.set i a).getD j d = l.getD j d := by
  simp [List.getD, List.get?_eq_getElem?, List.getElem?_set_ne h]

theorem getD_set_self {l : List Bool} {i : Nat} (a d : Bool) (h : i < l.length) :
    (l.set i a).getD i d = a := by
  simp [List.getD, List.get?_eq_getElem?, List.getElem?_set_self, h]

theorem getD_of_le {l : List Bool} {i : Nat} (d : Bool) (h : l.length ≤ i) :
    l.getD i d = d := by
  simp [List.getD, List.get?_eq_getElem?, List.getElem?_eq_none (by simpa using h)]

theorem closeA_allowMultiple (acc : Accordion) (i : Nat) :
    (closeA acc i).1.allowMultiple = acc.allowMultiple := by
  unfold closeA
  split_ifs <;> rfl

theorem closeA_length (acc : Accordion) (i : Nat) :
    (closeA acc i).1.items.length = acc.items.length := by
  unfold closeA
  split_ifs <;> simp

theorem closeA_getD (acc : Accordion) (i j : Nat) :
    (closeA acc i).1.items.getD j false =
      if j = i then false else acc.items.getD j false := by
  by_cases hji : j = i
  · subst hji
    rw [if_pos rfl]
    unfold closeA
    split_ifs with h1 h2
    · exact getD_set_self false false h1
    · simpa using h2
    · exact getD_of_le false (Nat.le_of_not_lt h1)
  · rw [if_neg hji]
    unfold closeA
    split_ifs with h1 h2
    · exact getD_set_of_ne false false (Ne.symm hji)
    · rfl
    · rfl

theorem closeEach_allowMultiple : ∀ (is : List Nat) (acc : Accordion) (index : Nat),
    (closeEach acc is index).1.allowMultiple = acc.allowMultiple := by
  intro is
  induction is with
  | nil => intro acc index; rfl
  | cons i rest ih =>
    intro acc index
    simp only [closeEach]
    split_ifs with h
    · rw [ih, closeA_allowMultiple]
    · exact ih acc index

theorem closeEach_length : ∀ (is : List Nat) (acc : Accordion) (index : Nat),
    (closeEach acc is index).1.items.length = acc.items.length := by
  intro is
  induction is with
  | nil => intro acc index; rfl
  | cons i rest ih =>
    intro acc index
    simp only [closeEach]
    split_ifs with h
    · rw [ih, closeA_length]
    · exact ih acc index

theorem closeEach_getD : ∀ (is : List Nat) (acc : Accordion) (index j : Nat),
    (closeEach acc is index).1.items.getD j false =
      if j ∈ is ∧ j ≠ index then false else acc.items.getD j false := by
  intro is
  induction is with
  | nil =>
    intro acc index j
    simp [closeEach]
  | cons i rest ih =>
    intro acc index j
    by_cases hR : j ∈ i :: rest ∧ j ≠ index
    · rw [if_pos hR]
      simp only [closeEach]
      have hji' : ¬(j ∈ rest ∧ j ≠ index) → j = i := by
        intro h1
        rcases List.mem_cons.mp hR.1 with h | h
        · exact h
        · exact absurd ⟨h, hR.2⟩ h1
      split_ifs with hcond
      · rw [ih]
        by_cases h1 : j ∈ rest ∧ j ≠ index
        · rw [if_pos h1]
        · rw [if_neg h1, closeA_getD, if_pos (hji' h1)]
      · rw [ih]
        by_cases h1 : j ∈ rest ∧ j ≠ index
        · rw [if_pos h1]
        · rw [if_neg h1]
          have hj := hji' h1
          subst hj
          rcases Decidable.not_and_iff_or_not.mp hcond with h3 | h3
          · exact absurd hR.2 (by simpa using h3)
          · simpa using h3
    · rw [if_neg hR]
      simp only [closeEach]
      have h1 : ¬(j ∈ rest ∧ j ≠ index) := fun hh =>
        hR ⟨List.mem_cons_of_mem _ hh.1, hh.2⟩
      split_ifs with hcond
      · have hne : j ≠ i := by
          intro hji
          subst hji
          by_cases hidx : j = index
          · exact hcond.1 hidx
          · exact hR ⟨List.mem_cons_self _ _, hidx⟩
        rw [ih, if_neg h1, closeA_getD, if_neg hne]
      · rw [ih, if_neg h1]

theorem closeEach_of_none : ∀ (is : List Nat) (acc : Accordion) (index : Nat),
    (∀ j ∈ is, j = index ∨ acc.items.getD j false = false) →
    closeEach acc is index = (acc, []) := by
  intro is
  induction is with
  | nil => intro acc index _; rfl
  | cons i rest ih =>
    intro acc index h
    simp only [closeEach]
    rw [if_neg ?_]
    · exact ih acc index (fun j hj => h j (List.mem_cons_of_mem _ hj))
    · rintro ⟨hni, hopen⟩
      rcases h i (List.mem_cons_self _ _) with h1 | h1
      · exact hni h1
      · rw [h1] at hopen
        exact Bool.noConfusion hopen

theorem closeEach_single : ∀ (is : List Nat) (acc : Accordion) (index A : Nat),
    A ∈ is → A ≠ index → acc.items.getD A false = true →
    A < acc.items.length →
    (∀ j ∈ is, j ≠ A → j = index ∨ acc.items.getD j false = false) →
    closeEach acc is index =
      ({ acc with items := acc.items.set A false }, [(A, false)]) := by
  intro is
  induction is with
  | nil =>
    intro acc index A hA
    cases hA
  | cons i rest ih =>
    intro acc index A hA hAne hAopen hAlt hothers
    simp only [closeEach]
    by_cases hiA : i = A
    · subst hiA
      rw [if_pos ⟨hAne, hAopen⟩]
      have hclose : closeA acc i = ({ acc with items := acc.items.set i false },
          [(i, false)]) := by
        unfold closeA
        rw [if_pos hAlt, if_pos hAopen]
      have hnone : closeEach ({ acc with items := acc.items.set i false }) rest index =
          ({ acc with items := acc.items.set i false }, []) := by
        apply closeEach_of_none
        intro j hj
        by_cases hjA : j = i
        · subst hjA
          exact Or.inr (by simpa using getD_set_self false false hAlt)
        · rcases hothers j (List.mem_cons_of_mem _ hj) hjA with h | h
          · exact Or.inl h
          · refine Or.inr ?_
            rw [show ({ acc with items := acc.items.set i false } : Accordion).items =
              acc.items.set i false from rfl, getD_set_of_ne false false (Ne.symm hjA)]
            exact h
      rw [hclose, hnone]
      simp
    · rw [if_neg ?_]
      · refine ih acc index A ?_ hAne hAopen hAlt ?_
        · rcases List.mem_cons.mp hA with h | h
          · exact absurd h.symm hiA
          · exact h
        · exact fun j hj => hothers j (List.mem_cons_of_mem _ hj)
      · rintro ⟨hni, hopen⟩
        rcases hothers i (List.mem_cons_self _ _) hiA with h | h
        · exact hni h
        · rw [h] at hopen
          exact Bool.noConfusion hopen

theorem openA_allowMultiple (acc : Accordion) (i : Nat) :
    (openA acc i).1.allowMultiple = acc.allowMultiple := by
  unfold openA
  split_ifs with h1 h2 h3 <;>
    first
    | rfl
    | (show (closeEach acc (List.range acc.items.length) i).1.allowMultiple =
        acc.allowMultiple
       exact closeEach_allowMultiple _ acc i)

theorem length_le_one_of_all_eq {l : List Nat} (hnd : l.Nodup) (i : Nat)
    (h : ∀ x ∈ l, x = i) : l.length ≤ 1 := by
  cases l with
  | nil => simp
  | cons a t =>
    cases t with
    | nil => simp
    | cons b u =>
      exfalso
      have ha : a = i := h a (by simp)
      have hb : b = i := h b (by simp)
      rw [List.nodup_cons] at hnd
      exact hnd.1 (by simp [ha, hb])

theorem openCount_le_of_pointwise {acc₁ acc₂ : Accordion}
    (hlen : acc₁.items.length = acc₂.items.length)
    (h : ∀ j, acc₁.items.getD j false = true → acc₂.items.getD j false = true) :
    openCount acc₁ ≤ openCount acc₂ := by
  unfold openCount
  rw [hlen]
  exact (List.monotone_filter_right _ (fun j hj => h j hj)).length_le

theorem openCount_closeA_le (acc : Accordion) (i : Nat) :
    openCount (closeA acc i).1 ≤ openCount acc := by
  refine openCount_le_of_pointwise (closeA_length acc i) ?_
  intro j hj
  rw [closeA_getD] at hj
  by_cases hji : j = i
  · rw [if_pos hji] at hj
    exact Bool.noConfusion hj
  · rwa [if_neg hji] at hj

theorem openCount_le_one_of_all_eq {acc : Accordion} (i : Nat)
    (h : ∀ j, acc.items.getD j false = true → j = i) : openCount acc ≤ 1 := by
  refine length_le_one_of_all_eq (List.Nodup.filter _ (List.nodup_range _)) i ?_
  intro x hx
  rw [List.mem_filter] at hx
  exact h x hx.2

theorem openCount_openA_le_one (acc : Accordion) (i : Nat)
    (hm : acc.allowMultiple = false) (hc : openCount acc ≤ 1) :
    openCount (openA acc i).1 ≤ 1 := by
  unfold openA
  rw [show (if acc.allowMultiple then (acc, ([] : List (Nat × Bool)))
      else closeEach acc (List.range acc.items.length) i) =
      closeEach acc (List.range acc.items.length) i from by
    rw [if_neg (by simp [hm])]]
  split_ifs with h1 h2
  · exact hc
  · refine openCount_le_one_of_all_eq i ?_
    intro j hj
    by_cases hji : j = i
    · exact hji
    · exfalso
      rw [getD_set_of_ne true false (Ne.symm hji), closeEach_getD] at hj
      by_cases hjlen : j < acc.items.length
      · rw [if_pos ⟨List.mem_range.mpr hjlen, hji⟩] at hj
        exact Bool.noConfusion hj
      · rw [if_neg (fun hh => hjlen (List.mem_range.mp hh.1))] at hj
        rw [getD_of_le false (Nat.le_of_not_lt hjlen)] at hj
        exact Bool.noConfusion hj
  · exact hc

/-- **C8**: in single-open mode at most one panel is open in every
reachable accordion state; and opening panel `B` while panel `A` is open
first closes `A` and then opens `B`, firing `onToggle` exactly once for
each transition: the call log is `[(A, false), (B, true)]`. -/
theorem c8_single_open_mode
    (a : Accordion) (hreach : ReachableAcc a)
    (acc : Accordion) (A B : Nat)
    (hm : acc.allowMultiple = false)
    (hAlt : A < acc.items.length) (hBlt : B < acc.items.length) (hAB : A ≠ B)
    (hAopen : acc.items.getD A false = true)
    (honly : ∀ j, j ≠ A → acc.items.getD j false = false) :
    openCount a ≤ 1 ∧
    openA acc B =
      ({ acc with items := (acc.items.set A false).set B true },
       [(A, false), (B, true)]) := by
  constructor
  · have hmul : ∀ b : Accordion, ReachableAcc b → b.allowMultiple = false := by
      intro b hb
      induction hb with
      | init n => rfl
      | openStep i hb ih => rw [openA_allowMultiple]; exact ih
      | closeStep i hb ih => rw [closeA_allowMultiple]; exact ih
      | toggleStep i hb ih =>
        unfold toggleA
        split_ifs with h1 h2
        · rw [closeA_allowMultiple]; exact ih
        · rw [openA_allowMultiple]; exact ih
        · exact ih
    induction hreach with
    | init n =>
      refine openCount_le_one_of_all_eq 0 ?_
      intro j hj
      exfalso
      by_cases hjn : j < n
      · rw [show (⟨false, List.replicate n false⟩ : Accordion).items =
          List.replicate n false from rfl] at hj
        simp [List.getD, List.get?_eq_getElem?, List.getElem?_replicate, hjn] at hj
      · rw [getD_of_le false (by simpa using Nat.le_of_not_lt hjn)] at hj
        exact Bool.noConfusion hj
    | openStep i hb ih =>
      exact openCount_openA_le_one _ i (hmul _ hb) ih
    | closeStep i hb ih =>
      exact le_trans (openCount_closeA_le _ i) ih
    | toggleStep i hb ih =>
      unfold toggleA
      split_ifs with h1 h2
      · exact le_trans (openCount_closeA_le _ i) ih
      · exact openCount_openA_le_one _ i (hmul _ hb) ih
      · exact ih
  · have hBclosed : ¬ acc.items.getD B false = true := by
      intro h
      rw [honly B (Ne.symm hAB)] at h
      exact Bool.noConfusion h
    unfold openA
    rw [if_pos hBlt, if_neg hBclosed,
      show ((if acc.allowMultiple then (acc, ([] : List (Nat × Bool)))
        else closeEach acc (List.range acc.items.length) B)) =
        closeEach acc (List.range acc.items.length) B by rw [if_neg (by simp [hm])],
      closeEach_single (List.range acc.items.length) acc B A
        (List.mem_range.mpr hAlt) hAB hAopen hAlt
        (fun j _ hj => Or.inr (honly j hj))]
    simp

/-- Witness for C8 at a concrete input: a two-panel single-open accordion
reached by opening panel 0, then switching to panel 1. -/
theorem c8_single_open_mode_witness :
    openCount (openA ⟨false, List.replicate 2 false⟩ 0).1 ≤ 1 ∧
    openA ⟨false, [true, false]⟩ 1 =
      ({ allowMultiple := false, items := (([true, false].set 0 false).set 1 true) },
       [(0, false), (1, true)]) :=
  c8_single_open_mode (openA ⟨false, List.replicate 2 false⟩ 0).1
    (ReachableAcc.openStep 0 (ReachableAcc.init 2))
    ⟨false, [true, false]⟩ 0 1 rfl (by decide) (by decide) (by decide) (by decide)
    (by
      intro j hj
      match j with
      | 0 => exact absurd rfl hj
      | 1 => rfl
      | n + 2 => rfl)

/-! ## C2: debounced inputs share one timer -/

theorem searchBurst_aux : ∀ (evs : List (Int × String)) (s : DebState) (t₀ : Int),
    s.pending = some (t₀ + debounceDelay, DebKind.search) →
    List.Chain (fun a b : Int => b < a + debounceDelay) t₀ (evs.map Prod.fst) →
    processEvents s (evs.map (fun p => (p.1, DebEvent.searchInput p.2))) =
      { s with searchDom := (evs.map Prod.snd).getLastD s.searchDom
               pending := some ((evs.map Prod.fst).getLastD t₀ + debounceDelay,
                 DebKind.search) } := by
  intro evs
  induction evs with
  | nil =>
    intro s t₀ hpend _
    show s = { s with pending := some (t₀ + debounceDelay, DebKind.search) }
    rw [← hpend]
  | cons p rest ih =>
    intro s t₀ hpend hchain
    obtain ⟨t, v⟩ := p
    rw [List.map_cons, List.chain_cons] at hchain
    obtain ⟨hlt, hchain₂⟩ := hchain
    simp only at hlt
    show processEvents (applyEvent (fireIfDue s t) t (DebEvent.searchInput v))
      (rest.map (fun p => (p.1, DebEvent.searchInput p.2))) = _
    have hnofire : fireIfDue s t = s := by
      simp only [fireIfDue, hpend]
      rw [if_neg (by omega)]
    rw [hnofire]
    rw [ih _ t rfl hchain₂]
    rw [List.map_cons, List.map_cons, List.getLastD_cons, List.getLastD_cons]
    rfl

/-- **C2 counterexample**: the claimed independence of the search and price
debounces fails on the code, which shares one `debounceTimeout` handle.  A
search input at t=0 alone commits the search text at t=300; but with a
min-price input following at t=100, the pending search commit is cancelled:
after both windows elapse, exactly one commit happened — the price one —
and the typed search text `"abc"` was never committed into the filters. -/
theorem c2_counterexample_price_input_cancels_search :
    (fireTimeout (processEvents initDebState
        [(0, DebEvent.searchInput "abc")])).filters.search = "abc" ∧
    (fireTimeout (processEvents initDebState
        [(0, DebEvent.searchInput "abc")])).commits =
      [{ defaultFilters with search := "abc" }] ∧
    (fireTimeout (processEvents initDebState
        [(0, DebEvent.searchInput "abc"), (100, DebEvent.minInput "500")])).filters.search
      = "" ∧
    (fireTimeout (processEvents initDebState
        [(0, DebEvent.searchInput "abc"), (100, DebEvent.minInput "500")])).commits
      = [{ defaultFilters with minPrice := some 500 }] := by
  refine ⟨?_, ?_, ?_, ?_⟩ <;> decide

/-- **C2 (amended)**: a burst of rapid search inputs (each within 300 ms of
the previous one) with no other debounced-control input intervening commits
nothing during the burst and leaves exactly one pending search commit,
scheduled 300 ms after the last input; firing it performs exactly one
filter application, using the last input value (lower-cased and trimmed).
The search and price controls share the single `debounceTimeout` handle, so
an input to a price control replaces whatever commit is pending — including
a pending search commit — with a price commit scheduled 300 ms after that
input. -/
theorem c2_amended_shared_debounce_burst
    (s₀ : DebState) (t₀ : Int) (v₀ : String) (evs : List (Int × String))
    (hpend : s₀.pending = none)
    (hchain : List.Chain (fun a b : Int => b < a + debounceDelay) t₀
      (evs.map Prod.fst)) :
    (runSearchBurst s₀ t₀ v₀ evs).commits = s₀.commits ∧
    (runSearchBurst s₀ t₀ v₀ evs).filters = s₀.filters ∧
    (runSearchBurst s₀ t₀ v₀ evs).pending =
      some ((evs.map Prod.fst).getLastD t₀ + debounceDelay, DebKind.search) ∧
    (fireTimeout (runSearchBurst s₀ t₀ v₀ evs)).commits =
      s₀.commits ++
        [{ s₀.filters with
            search := jsTrim (jsToLower ((evs.map Prod.snd).getLastD v₀)) }] ∧
    (∀ (s : DebState) (t : Int) (v : String),
      (applyEvent s t (DebEvent.minInput v)).pending =
        some (t + debounceDelay, DebKind.price) ∧
      (applyEvent s t (DebEvent.maxInput v)).pending =
        some (t + debounceDelay, DebKind.price)) := by
  have hstep : runSearchBurst s₀ t₀ v₀ evs =
      processEvents
        { s₀ with searchDom := v₀
                  pending := some (t₀ + debounceDelay, DebKind.search) }
        (evs.map (fun p => (p.1, DebEvent.searchInput p.2))) := by
    unfold runSearchBurst
    rw [List.map_cons]
    show processEvents (applyEvent (fireIfDue s₀ t₀) t₀ (DebEvent.searchInput v₀))
      (evs.map (fun p => (p.1, DebEvent.searchInput p.2))) = _
    have : fireIfDue s₀ t₀ = s₀ := by
      unfold fireIfDue
      rw [hpend]
    rw [this]
    rfl
  rw [hstep, searchBurst_aux evs _ t₀ rfl hchain]
  refine ⟨rfl, rfl, rfl, ?_, fun s t v => ⟨rfl, rfl⟩⟩
  simp [fireTimeout, commitSearch]

/-- Witness for C2 (amended) at a concrete input: three rapid search inputs
commit once, with the last value. -/
theorem c2_amended_shared_debounce_burst_witness :
    (fireTimeout (runSearchBurst initDebState 0 "a" [(100, "ab"), (200, "abc")])).commits =
      [{ defaultFilters with search := "abc" }] := by
  have h := (c2_amended_shared_debounce_burst initDebState 0 "a"
    [(100, "ab"), (200, "abc")] rfl
    (by norm_num [List.chain_cons, debounceDelay])).2.2.2.1
  exact h.trans (by decide)

end P4C
